/-
Verification of the indexed min-priority-queue repository
(`src/include/priority_queue.hpp` and the hash table header in
`src/unnamed/part_002`) against its natural-language specification.

The C++ sources are shallowly embedded below: each C++ member function
becomes a Lean function on an explicit state record.  `unsigned`
arithmetic is modelled on `Nat` with an explicit `% 2^32` at the
operations where C++ wraps.  Loops become fuel-based recursions whose
fuel provably dominates the iteration count of the corresponding C++
loop.  Fallible operations return a `Bool` alongside the new state,
exactly like the C++ `bool` results.
-/
import Mathlib

set_option autoImplicit false
set_option maxRecDepth 100000

namespace CppPQ

/-- `2^32`, the modulus of C++ `unsigned` arithmetic. -/
def U32 : Nat := 4294967296

/-- Unsigned subtraction `a - b` as C++ computes it for operands already
reduced mod `2^32` (used for `key - change` and `elementCount--`). -/
def u32sub (a b : Nat) : Nat := (a % U32 + (U32 - b % U32)) % U32

/-- The `Pair` struct of `part_002` (also used for heap nodes):
`{unsigned key; ValueType value; bool isEmpty = true;}`.
`new Pair[...]` leaves `key`/`value` indeterminate and `isEmpty = true`;
the default below uses `key = 0` and `default` — no theorem in this file
ever observes an indeterminate field. -/
structure Pair (α : Type) where
  key : Nat
  value : α
  isEmpty : Bool
deriving Repr, DecidableEq

/-- A freshly default-initialised slot, as produced by `new Pair<V>[n]`. -/
def blankPair (α : Type) [Inhabited α] : Pair α :=
  { key := 0, value := default, isEmpty := true }

instance (α : Type) [Inhabited α] : Inhabited (Pair α) := ⟨blankPair α⟩

/-- State of `HashTable<ValueType>` (`part_002`): the bucket array, its
length (`size`) and the stored element count (`elementCount`). -/
structure HT (α : Type) where
  size : Nat
  table : List (Pair α)
  elementCount : Nat
deriving Repr, DecidableEq

variable {α : Type}

/-- `table[i]` (reads of a default-initialised or out-of-range cell give
the blank pair; no theorem below depends on such a read). -/
def HT.slotAt [Inhabited α] (t : HT α) (i : Nat) : Pair α :=
  t.table.getD i default

/-- The probe position `(index + (i*i)) % tableSize()` with C++ `unsigned`
products and sums wrapping at `2^32`. -/
def probe (size home i : Nat) : Nat := (home + i * i % U32) % U32 % size

/-- `isPrime` of both headers: `value == 1` is rejected, then trial division
by every `i` in `[2, value)`.  Note the C++ function returns `true` for
`0` and `2` (the loop body never runs). -/
def isPrime (v : Nat) : Bool :=
  if v = 1 then false
  else (List.range' 2 (v - 2)).all fun i => v % i != 0

/-- The `while(!isPrime(primeNum)) primeNum++;` loop of `nextPrime`,
with explicit fuel (the C++ loop terminates because primes are infinite;
`nextPrimeFuel` below supplies enough fuel for that same reason). -/
def nextPrimeAux : Nat → Nat → Nat
  | 0, v => v
  | fuel + 1, v => if isPrime v then v else nextPrimeAux fuel (v + 1)

/-- `nextPrime(value)`: the first `p ≥ value` with `isPrime p`.
Fuel `v + 2` suffices: by Bertrand's postulate some prime lies in
`[v, 2*v + 1]`, at distance at most `v + 1` from `v`. -/
def nextPrime (v : Nat) : Nat := nextPrimeAux (v + 2) v

/-- `HashTable(tableSize)` after a successful construction (the C++
constructor throws unless `tableSize` is a positive prime). -/
def HT.make (α : Type) [Inhabited α] (tableSize : Nat) : HT α :=
  { size := tableSize
    table := List.replicate tableSize (blankPair α)
    elementCount := 0 }

/-- Write `{key, value, isEmpty = false}` into bucket `i`. -/
def HT.place [Inhabited α] (t : HT α) (i key : Nat) (v : α) : HT α :=
  { t with table := t.table.set i { key := key, value := v, isEmpty := false } }

/-- The occupied `(key, value)` pairs in bucket-scan order, as collected
into `temp` by `checkRehash` (the C++ copy loop fills exactly
`prevElementCount` cells; the two agree whenever `elementCount` matches
the physical occupancy, which every theorem below assumes or maintains). -/
def HT.occupiedPairs (t : HT α) : List (Nat × α) :=
  (t.table.filter fun s => !s.isEmpty).map fun s => (s.key, s.value)

/-- Number of occupied buckets among positions `0 .. size-1`. -/
def HT.occCount [Inhabited α] (t : HT α) : Nat :=
  ((List.range t.size).filter fun i => (t.slotAt i).isEmpty = false).length

/-- One iteration of the reinsertion loop of `checkRehash`: home bucket
if empty, else the first empty bucket on the quadratic probe sequence;
if the probe loop finds no empty bucket the element is silently dropped
(the C++ inner loop just ends). -/
def reinsertOne [Inhabited α] (newSize : Nat) (tbl : List (Pair α)) (p : Nat × α) :
    List (Pair α) :=
  if (tbl.getD (p.1 % newSize) default).isEmpty then
    tbl.set (p.1 % newSize) { key := p.1, value := p.2, isEmpty := false }
  else
    match (List.range newSize).findSome? (fun j =>
        if (tbl.getD (probe newSize (p.1 % newSize) j) default).isEmpty then
          some (probe newSize (p.1 % newSize) j)
        else none) with
    | some idx => tbl.set idx { key := p.1, value := p.2, isEmpty := false }
    | none => tbl

/-- `checkRehash(index, key)` (`part_002`): called with `elementCount`
already incremented; on load factor `≥ 0.5` (exactly `2*count ≥ size` —
the C++ `double` quotient is exact for operands below `2^32`) it collects
the occupied pairs, grows `size` to `nextPrime(2*size)`, reinserts, and
returns `key % newSize`; otherwise returns `index` unchanged. -/
def HT.checkRehash [Inhabited α] (t : HT α) (index key : Nat) : HT α × Nat :=
  if 2 * t.elementCount ≥ t.size then
    let newSize := nextPrime (2 * t.size % U32)
    let newTable := t.occupiedPairs.foldl (reinsertOne newSize)
      (List.replicate newSize (blankPair α))
    ({ size := newSize, table := newTable, elementCount := t.elementCount },
     key % newSize)
  else
    (t, index)

/-- `HashTable::insert(key, value)`.  First phase: if the home bucket is
empty, count the element and run the rehash check; otherwise scan the
probe sequence for a duplicate (`return false`) or a first empty bucket
(count + rehash check), falling through with nothing counted if the scan
finds neither.  Second phase: place at `index` if empty, else at the
first empty probe position, else `return false`.
The placement half (everything after the rehash check) is split
out as `placePhase` below so the two code blocks can be reasoned about
separately. -/
def HT.placePhase [Inhabited α] (t' : HT α) (index key : Nat) (v : α) : HT α × Bool :=
  if (t'.slotAt index).isEmpty then (t'.place index key v, true)
  else
    match (List.range t'.size).findSome? (fun i =>
        if (t'.slotAt (probe t'.size index i)).isEmpty then
          some (probe t'.size index i)
        else none) with
    | some idx => (t'.place idx key v, true)
    | none => (t', false)

/-- The first phase of `HashTable::insert`: the duplicate / first-empty
scan, the count increment and the rehash check; `none` models the early
`return false` on a duplicate, `some (t', index)` carries the (possibly
rehashed) table and placement start index into `placePhase`. -/
def HT.insertScan [Inhabited α] (t : HT α) (key : Nat) : Option (HT α × Nat) :=
  if (t.slotAt (key % t.size)).isEmpty then
    some (HT.checkRehash { t with elementCount := (t.elementCount + 1) % U32 }
      (key % t.size) key)
  else
    match (List.range t.size).findSome? (fun i =>
        if !(t.slotAt (probe t.size (key % t.size) i)).isEmpty &&
           (t.slotAt (probe t.size (key % t.size) i)).key == key then some true
        else if (t.slotAt (probe t.size (key % t.size) i)).isEmpty then some false
        else none) with
    | some true => none
    | some false =>
        some (HT.checkRehash { t with elementCount := (t.elementCount + 1) % U32 }
          (key % t.size) key)
    | none => some (t, key % t.size)

/-- `HashTable::insert(key, value)` = scan phase, then placement. -/
def HT.insert [Inhabited α] (t : HT α) (key : Nat) (v : α) : HT α × Bool :=
  match t.insertScan key with
  | none => (t, false)
  | some pr => (pr.1).placePhase pr.2 key v

/-- The bucket search shared verbatim by `get`, `update` and `remove`
(`part_002`): the home bucket is tested first (`key % tableSize()`),
then the quadratic probe loop `i = 0 .. tableSize()-1` — which retests
the home bucket at `i = 0` — looking for an occupied bucket holding
`key`.  Returns the bucket index of the first hit. -/
def HT.findSlot [Inhabited α] (t : HT α) (key : Nat) : Option Nat :=
  if !(t.slotAt (key % t.size)).isEmpty && (t.slotAt (key % t.size)).key == key then
    some (key % t.size)
  else
    (List.range t.size).findSome? fun i =>
      if !(t.slotAt (probe t.size (key % t.size) i)).isEmpty &&
         (t.slotAt (probe t.size (key % t.size) i)).key == key then
        some (probe t.size (key % t.size) i)
      else none

/-- `HashTable::get(key)`: pointer to the stored value, `none` for the
C++ null pointer. -/
def HT.get [Inhabited α] (t : HT α) (key : Nat) : Option α :=
  (t.findSlot key).map fun idx => (t.slotAt idx).value

/-- `HashTable::update(key, newValue)`. -/
def HT.update [Inhabited α] (t : HT α) (key : Nat) (v : α) : HT α × Bool :=
  match t.findSlot key with
  | some idx =>
      ({ t with table := t.table.set idx { t.slotAt idx with value := v } }, true)
  | none => (t, false)

/-- `HashTable::remove(key)`: clears `isEmpty` on the first hit and
decrements `elementCount` (a C++ `unsigned` decrement). -/
def HT.remove [Inhabited α] (t : HT α) (key : Nat) : HT α × Bool :=
  match t.findSlot key with
  | some idx =>
      ({ t with
          table := t.table.set idx { t.slotAt idx with isEmpty := true }
          elementCount := u32sub t.elementCount 1 }, true)
  | none => (t, false)

/-! ## The priority queue (`src/include/priority_queue.hpp`)

State of `PriorityQueue<ValueType>`: the 1-indexed heap array `heap`
(allocated with `maxSize + 1` cells, cell 0 unused), the hash index
`data : HashTable<unsigned>` mapping key → heap slot, the fixed capacity
`size` (`maxSize()`), and `elementCount`.

Child/parent arithmetic (`2*index`, `2*index+1`, `index/2`) is kept on
plain `Nat`: its C++ `unsigned` wrap would require a heap of at least
`2^31` nodes, and every theorem below either evaluates a small concrete
trace or never steps these functions. -/

structure PQ (β : Type) where
  heap : List (Pair β)
  data : HT Nat
  size : Nat
  elementCount : Nat
deriving Repr, DecidableEq

variable {β : Type}

/-- `heap[i]`. -/
def PQ.hAt [Inhabited β] (q : PQ β) (i : Nat) : Pair β :=
  q.heap.getD i default

/-- Overwrite `heap[i]`. -/
def PQ.hSet (q : PQ β) (i : Nat) (p : Pair β) : PQ β :=
  { q with heap := q.heap.set i p }

/-- `PriorityQueue(maxSize)` after a successful construction (the C++
constructor throws for `maxSize == 0`): heap of `maxSize + 1` blank
cells, hash index of size `nextPrime(maxSize)`. -/
def PQ.make (β : Type) [Inhabited β] (maxSize : Nat) : PQ β :=
  { heap := List.replicate (maxSize + 1) (blankPair β)
    data := HT.make Nat (nextPrime maxSize)
    size := maxSize
    elementCount := 0 }

/-- `leftChild(index)` = `2*index`. -/
def leftChild (index : Nat) : Nat := 2 * index

/-- `rightChild(index)` = `2*index + 1`. -/
def rightChild (index : Nat) : Nat := 2 * index + 1

/-- `parent(index)` = `index / 2`. -/
def parent (index : Nat) : Nat := index / 2

/-- The `while` loop of `percolateUp`: swap with the parent while it has
a strictly larger key, updating the hash index for the node that moved
down into `index`.  Fuel dominates the loop: `index` at least halves
every iteration, so `fuel = index` covers `log2 index + 1` iterations. -/
def PQ.percolateUpAux [Inhabited β] : Nat → PQ β → Nat → PQ β × Nat
  | 0, q, index => (q, index)
  | fuel + 1, q, index =>
    if index > 1 ∧ (q.hAt (parent index)).key > (q.hAt index).key then
      let temp := q.hAt (parent index)
      let q1 := (q.hSet (parent index) (q.hAt index)).hSet index temp
      let q2 := { q1 with data := (q1.data.update (q1.hAt index).key index).1 }
      PQ.percolateUpAux fuel q2 (parent index)
    else
      (q, index)

/-- `percolateUp(index)`; returns the final slot. -/
def PQ.percolateUp [Inhabited β] (q : PQ β) (index : Nat) : PQ β × Nat :=
  PQ.percolateUpAux index q index

/-- Child selection inside the `percolateDown` loop:
`if (heap[leftChild].key > heap[rightChild].key) smallest = rightChild;
else smallest = leftChild;`. -/
def PQ.childSelect [Inhabited β] (q : PQ β) (index : Nat) : Nat :=
  if (q.hAt (leftChild index)).key > (q.hAt (rightChild index)).key then
    rightChild index
  else
    leftChild index

/-- The `while` loop of `percolateDown`, carrying the `baseCase` flag
(set before the loop when `elementCount <= 2`, cleared at the end of
every iteration).  The guard and body read `heap[leftChild(index)]` and
`heap[rightChild(index)]` exactly as the C++ does — including the reads
of cells beyond `elementCount` that the base case permits.  Fuel
dominates the loop: `index` at least doubles at every swap and the guard
needs `2*index < elementCount` once `baseCase` is off. -/
def PQ.percolateDownAux [Inhabited β] : Nat → PQ β → Nat → Bool → PQ β × Nat
  | 0, q, index, _ => (q, index)
  | fuel + 1, q, index, baseCase =>
    if (rightChild index < q.elementCount ∨ leftChild index < q.elementCount ∨
        baseCase = true) ∧
       ((q.hAt index).key > (q.hAt (leftChild index)).key ∨
        (q.hAt index).key > (q.hAt (rightChild index)).key) then
      let smallest := q.childSelect index
      if smallest ≠ index then
        let temp := q.hAt index
        let q1 := (q.hSet index (q.hAt smallest)).hSet smallest temp
        let q2 := { q1 with data := (q1.data.update (q1.hAt index).key index).1 }
        PQ.percolateDownAux fuel q2 smallest false
      else
        PQ.percolateDownAux fuel q index false
    else
      (q, index)

/-- `percolateDown(index)`; returns the final slot. -/
def PQ.percolateDown [Inhabited β] (q : PQ β) (index : Nat) : PQ β × Nat :=
  PQ.percolateDownAux (q.elementCount + 2) q index (decide (q.elementCount ≤ 2))

/-- `PriorityQueue::insert(key, value)`. -/
def PQ.insert [Inhabited β] (q : PQ β) (key : Nat) (value : β) : PQ β × Bool :=
  if q.elementCount ≥ q.size ∨ q.data.get key ≠ none then
    (q, false)
  else
    let q1 := { q with elementCount := q.elementCount + 1 }
    let q2 := q1.hSet q1.elementCount
      { key := key, value := value, isEmpty := (q1.hAt q1.elementCount).isEmpty }
    let pu := q2.percolateUp q2.elementCount
    ({ pu.1 with data := ((pu.1).data.insert key pu.2).1 }, true)

/-- `PriorityQueue::getMinKey()`: the C++ body is unconditionally
`return &heap[1].key;`, so the result is never the null pointer (which
`none` would model) — even on an empty queue, where cell 1 holds
indeterminate or stale data. -/
def PQ.getMinKey [Inhabited β] (q : PQ β) : Option Nat :=
  some (q.hAt 1).key

/-- `PriorityQueue::getMinValue()`: unconditionally
`return &heap[1].value;`. -/
def PQ.getMinValue [Inhabited β] (q : PQ β) : Option β :=
  some (q.hAt 1).value

/-- `PriorityQueue::deleteMin()`. -/
def PQ.deleteMin [Inhabited β] (q : PQ β) : PQ β × Bool :=
  if q.elementCount = 0 then
    (q, false)
  else
    let q1 := { q with data := (q.data.remove (q.hAt 1).key).1 }
    let q2 := (q1.hSet 1 (q1.hAt q1.elementCount))
    let q3 := { q2 with elementCount := u32sub q2.elementCount 1 }
    let pd := q3.percolateDown 1
    ({ pd.1 with
        data := ((pd.1).data.update ((pd.1).hAt pd.2).key pd.2).1 }, true)

/-- `PriorityQueue::get(key)`. -/
def PQ.get [Inhabited β] (q : PQ β) (key : Nat) : Option β :=
  match q.data.get key with
  | none => none
  | some idx => some (q.hAt idx).value

/-- `PriorityQueue::decreaseKey(key, change)`: `heap[index].key -= change`
is the C++ `unsigned` subtraction, hence `u32sub`. -/
def PQ.decreaseKey [Inhabited β] (q : PQ β) (key change : Nat) : PQ β × Bool :=
  if change = 0 ∨ q.data.get key = none ∨ q.data.get (u32sub key change) ≠ none then
    (q, false)
  else
    let index := (q.data.get key).getD 0
    let q1 := { q with data := (q.data.remove key).1 }
    let q2 := q1.hSet index { q1.hAt index with key := u32sub (q1.hAt index).key change }
    let pu := q2.percolateUp index
    ({ pu.1 with data := ((pu.1).data.insert ((pu.1).hAt pu.2).key pu.2).1 }, true)

/-- `PriorityQueue::increaseKey(key, change)`: `heap[index].key += change`
wraps at `2^32`. -/
def PQ.increaseKey [Inhabited β] (q : PQ β) (key change : Nat) : PQ β × Bool :=
  if change = 0 ∨ q.data.get key = none ∨ q.data.get ((key + change) % U32) ≠ none then
    (q, false)
  else
    let index := (q.data.get key).getD 0
    let q1 := { q with data := (q.data.remove key).1 }
    let q2 := q1.hSet index { q1.hAt index with key := ((q1.hAt index).key + change) % U32 }
    let pd := q2.percolateDown index
    ({ pd.1 with data := ((pd.1).data.insert ((pd.1).hAt pd.2).key pd.2).1 }, true)

/-- The trailing index-repair sweep of `PriorityQueue::remove`:
`while (index <= elementCount) { if (*data.get(heap[index].key) != index)
data.update(heap[index].key, index); index++; }`.  The C++ dereferences
the `get` pointer, which is undefined behaviour when the key is absent;
the comparison below treats an absent key as a mismatch (every trace
evaluated in this file keeps the key present). -/
def PQ.removeSweep [Inhabited β] : Nat → PQ β → Nat → PQ β
  | 0, q, _ => q
  | fuel + 1, q, index =>
    if index ≤ q.elementCount then
      let q' :=
        if q.data.get (q.hAt index).key ≠ some index then
          { q with data := (q.data.update (q.hAt index).key index).1 }
        else q
      PQ.removeSweep fuel q' (index + 1)
    else q

/-- `PriorityQueue::remove(key)`: move the last node into the vacated
slot, percolate down (from the slot, with `elementCount` not yet
decremented), percolate up instead if no downward movement occurred,
record the settled slot, decrement the count, then run the repair
sweep from the settled slot to the new last slot. -/
def PQ.remove [Inhabited β] (q : PQ β) (key : Nat) : PQ β × Bool :=
  if q.data.get key = none then
    (q, false)
  else
    let index := (q.data.get key).getD 0
    let q1 := { q with data := (q.data.remove key).1 }
    let q2 := q1.hSet index (q1.hAt q1.elementCount)
    let pd := q2.percolateDown index
    let settled :=
      if pd.2 = index then (pd.1).percolateUp index
      else (pd.1, index)
    let q4 := settled.1
    let finalIndex := settled.2
    let q5 := { q4 with data := (q4.data.update (q4.hAt finalIndex).key finalIndex).1 }
    let q6 := { q5 with elementCount := u32sub q5.elementCount 1 }
    (q6.removeSweep (q6.elementCount + 1) finalIndex, true)

/-- `numElements()`. -/
def PQ.numElements (q : PQ β) : Nat := q.elementCount

/-- `maxSize()`. -/
def PQ.maxSize (q : PQ β) : Nat := q.size

/-! ## The level-order stream output (`operator<<` on `PriorityQueue`) -/

/-- One element rendered as `(key,value)`. -/
def pairString [ToString β] (p : Pair β) : String :=
  "(" ++ toString p.key ++ "," ++ toString p.value ++ ")"

/-- The elements `heap[1] .. heap[elementCount]` in array order, the
sequence the stream operator walks. -/
def PQ.liveElems [Inhabited β] (q : PQ β) : List (Pair β) :=
  (List.range q.elementCount).map fun i => q.hAt (i + 1)

/-- The print loop of `operator<<`: after each element `counter` is
incremented and compared with `current` (the size of the current level);
on a match a newline is emitted and `current` doubles, otherwise a
single space follows the element.  After the loop a final newline is
emitted iff `counter != 0`, i.e. iff the last level was left
incomplete. -/
def printLoop [ToString β] : List (Pair β) → Nat → Nat → String
  | [], counter, _ => if counter ≠ 0 then "\n" else ""
  | p :: rest, counter, current =>
    pairString p ++
      (if counter + 1 = current then "\n" ++ printLoop rest 0 (current + current)
       else " " ++ printLoop rest (counter + 1) current)

/-- The full text produced by `os << pq`. -/
def PQ.printString [Inhabited β] [ToString β] (q : PQ β) : String :=
  printLoop q.liveElems 0 1

/-- One level's elements joined by single spaces (spec-side rendering). -/
def renderLine [ToString β] : List (Pair β) → String
  | [] => ""
  | [p] => pairString p
  | p :: q :: rest => pairString p ++ " " ++ renderLine (q :: rest)

/-- Level-order rendering as the specification describes it, amended
with the code's actual behaviour on a partially filled final level: the
level's elements joined by single spaces, a complete level terminated by
a newline, and a partial final level terminated by one trailing space
followed by a newline.  Level sizes double starting at 1.  Fuel-based
recursion; any fuel above the element count is enough. -/
def renderLevels [ToString β] : Nat → List (Pair β) → Nat → String
  | 0, _, _ => ""
  | _ + 1, [], _ => ""
  | fuel + 1, p :: rest, levelSize =>
    let elems := p :: rest
    if elems.length < levelSize then
      renderLine elems ++ " \n"
    else
      renderLine (elems.take levelSize) ++ "\n" ++
        renderLevels fuel (elems.drop levelSize) (2 * levelSize)

/-- Level-order rendering exactly as the claim words it, with no
trailing space on a partially filled final level. -/
def renderLevelsClaim [ToString β] : Nat → List (Pair β) → Nat → String
  | 0, _, _ => ""
  | _ + 1, [], _ => ""
  | fuel + 1, p :: rest, levelSize =>
    let elems := p :: rest
    if elems.length < levelSize then
      renderLine elems ++ "\n"
    else
      renderLine (elems.take levelSize) ++ "\n" ++
        renderLevelsClaim fuel (elems.drop levelSize) (2 * levelSize)

/-- `renderLevels` with its canonical fuel: the spec-side description of
the stream output (amended by the trailing space on a partial final
level). -/
def PQ.renderSpec [Inhabited β] [ToString β] (q : PQ β) : String :=
  renderLevels (q.elementCount + 1) q.liveElems 1

/-! ## Concrete executions used by the theorems below

All are reachable from a freshly constructed queue or table by public
operations only. -/

/-- maxSize-3 queue after `insert(5,100), insert(10,200), insert(1,300)`. -/
def qA3 : PQ Nat :=
  ((((PQ.make Nat 3).insert 5 100).1.insert 10 200).1.insert 1 300).1

/-- `qA3` after one `deleteMin` (removes key 1; two live elements). -/
def qA4 : PQ Nat := qA3.deleteMin.1

/-- `qA4` after a second `deleteMin` (removes key 5; one live element).
`percolateDown(1)` runs with `elementCount = 1`, its base case reads the
stale cells 2 and 3, and it swaps the live node into cell 3. -/
def qA5 : PQ Nat := qA4.deleteMin.1

/-- maxSize-5 queue after `insert` of keys 1, 2, 10, 3, 4 (values 1-5). -/
def qB1 : PQ Nat :=
  (((((PQ.make Nat 5).insert 1 1).1.insert 2 2).1.insert 10 3).1.insert 3 4).1.insert 4 5 |>.1

/-- `qB1` after `deleteMin`: key 4 lands at slot 2 whose lone child at
slot 4 (key 3) is never examined because of the strict `<` in the
`percolateDown` guard. -/
def qB2 : PQ Nat := qB1.deleteMin.1

/-- maxSize-5 queue after `insert 5, insert 10, insert 1, deleteMin,
deleteMin, insert 5, insert 3, insert 7`: heap `[3, 5, 5, 7]` with the
duplicated key 5 at both children of the root (a state the earlier
`deleteMin` corruption makes reachable). -/
def qC3 : PQ Nat :=
  (((((((((PQ.make Nat 5).insert 5 11).1.insert 10 12).1.insert 1 13).1.deleteMin).1.deleteMin).1.insert 5 14).1.insert 3 15).1.insert 7 16).1

/-- `qC3` after `deleteMin`: `percolateDown(1)` sees the tied children
(keys 5 and 5, both smaller than 7) and swaps with the left child. -/
def qC4 : PQ Nat := qC3.deleteMin.1

/-- The scenario queue: maxSize 14, keys
18, 27, 20, 34, 30, 24, 99, 45, 80, 65, 78, 98, 97 inserted in order
(each with payload 1). -/
def qS0 : PQ Nat :=
  [18, 27, 20, 34, 30, 24, 99, 45, 80, 65, 78, 98, 97].foldl
    (fun q k => (q.insert k 1).1) (PQ.make Nat 14)

/-- `qS0` after `deleteMin()`. -/
def qS1 : PQ Nat := qS0.deleteMin.1

/-- `qS1` after `remove(24)`. -/
def qS2 : PQ Nat := (qS1.remove 24).1

/-- `qS2` after `increaseKey(20, 100)`. -/
def qS3 : PQ Nat := (qS2.increaseKey 20 100).1

/-- `qS3` after `remove(98)`. -/
def qS4 : PQ Nat := (qS3.remove 98).1

/-- `qS4` after `decreaseKey(120, 119)`. -/
def qS5 : PQ Nat := (qS4.decreaseKey 120 119).1

/-- The heap-order property on the live slots of a queue, decidably:
every slot `i` with `2 ≤ i ≤ elementCount` satisfies
`heap[i/2].key ≤ heap[i].key`. -/
def PQ.heapOrdered [Inhabited β] (q : PQ β) : Bool :=
  (List.range' 2 (q.elementCount - 1)).all fun i =>
    (q.hAt (parent i)).key ≤ (q.hAt i).key

/-- The size-7 hash table of the rehash scenario after inserting keys
2, 7, 5, then 9 (the insert that rehashes), then 8 and 6, parametrised
by the six stored values. -/
def tS (v1 v2 v3 v4 v5 v6 : Nat) : HT Nat :=
  ((((((HT.make Nat 7).insert 2 v1).1.insert 7 v2).1.insert 5 v3).1.insert 9
    v4).1.insert 8 v5).1.insert 6 v6 |>.1

/-- Intermediate states of the same scenario, for the size evolution. -/
def tS3 (v1 v2 v3 : Nat) : HT Nat :=
  ((((HT.make Nat 7).insert 2 v1).1.insert 7 v2).1.insert 5 v3).1

/-- The scenario table right after the fourth insert (key 9). -/
def tS4 (v1 v2 v3 v4 : Nat) : HT Nat := ((tS3 v1 v2 v3).insert 9 v4).1

/-- A 2-element queue whose print output exercises the partially filled
final level: maxSize 3, `insert(1,10)` then `insert(2,20)`. -/
def qP2 : PQ Nat := (((PQ.make Nat 3).insert 1 10).1.insert 2 20).1

/-- `qA5` after a third `deleteMin`: the queue is empty
(`numElements = 0`), every heap cell read along the way was written by
an earlier operation, and cell 1 still holds the stale pair `(5, 100)`. -/
def qE : PQ Nat := qA5.deleteMin.1

/-- A small size-7 table holding keys 1 and 2 (no rehash triggered),
used as a concrete witness state. -/
def tW : HT Nat := (((HT.make Nat 7).insert 1 5).1.insert 2 6).1

/-- Number of occupied cells among positions `0 .. n-1` of a bucket
list (`HT.occCount` is this function at `(t.table, t.size)`). -/
def occOf [Inhabited α] (tbl : List (Pair α)) (n : Nat) : Nat :=
  ((List.range n).filter fun i => (tbl.getD i default).isEmpty = false).length

/-! ## Theorems -/

/-- `findSome?` only depends on the values of the function on the
list. -/
theorem findSome?_congr {γ δ : Type} (f g : γ → Option δ) (l : List γ)
    (h : ∀ x ∈ l, f x = g x) : l.findSome? f = l.findSome? g := by
  induction l with
  | nil => rfl
  | cons a l ih =>
    rw [List.findSome?_cons, List.findSome?_cons, h a (List.mem_cons_self a l)]
    cases g a
    · exact ih fun x hx => h x (List.mem_cons_of_mem a hx)
    · rfl

/-- Reading a cell of a table after writing cell `i`. -/
theorem slotAt_set {α : Type} [Inhabited α] (t : HT α) (e : Nat) (i : Nat)
    (s : Pair α) (m : Nat) :
    (HT.mk t.size (t.table.set i s) e).slotAt m =
      if i = m ∧ i < t.table.length then s else t.slotAt m := by
  unfold HT.slotAt
  simp only [List.getD_eq_getElem?_getD, List.getElem?_set]
  by_cases h1 : i = m
  · subst h1
    by_cases h2 : i < t.table.length
    · simp [h2]
    · have hn : t.table[i]? = none := List.getElem?_eq_none (by omega)
      simp [h2, hn]
  · simp [h1]

/-- What a successful `findSlot` guarantees: the returned bucket is
occupied and holds the searched key. -/
theorem findSlot_spec {α : Type} [Inhabited α] (t : HT α) (k idx : Nat)
    (h : t.findSlot k = some idx) :
    (t.slotAt idx).isEmpty = false ∧ (t.slotAt idx).key = k := by
  unfold HT.findSlot at h
  split at h
  · next hcond =>
    obtain ⟨hocc, hkey⟩ : (t.slotAt (k % t.size)).isEmpty = false ∧
        (t.slotAt (k % t.size)).key = k := by simpa using hcond
    obtain rfl : k % t.size = idx := by simpa using h
    exact ⟨hocc, hkey⟩
  · obtain ⟨i, _, hf⟩ := List.exists_of_findSome?_eq_some h
    split at hf
    · next hcond =>
      obtain ⟨hocc, hkey⟩ : (t.slotAt (probe t.size (k % t.size) i)).isEmpty = false ∧
          (t.slotAt (probe t.size (k % t.size) i)).key = k := by simpa using hcond
      obtain rfl : probe t.size (k % t.size) i = idx := by simpa using hf
      exact ⟨hocc, hkey⟩
    · exact absurd hf (by simp)

/-- C10: removing one key never breaks the retrievability of any other
key: `get`, `update` and `remove` walk the whole quadratic probe
sequence without stopping at empty buckets, so after `remove(k)` every
other key `j` that `get` could find before is still found, with its
value unchanged — for every table state whatsoever. -/
theorem claim_C10_remove_preserves_get {α : Type} [Inhabited α] (t : HT α)
    (k j : Nat) (v : α) (hne : j ≠ k) (hget : t.get j = some v) :
    ((t.remove k).1).get j = some v := by
  cases hfs : t.findSlot k with
  | none =>
    simp only [HT.remove, hfs]
    exact hget
  | some idx =>
    obtain ⟨hocc, hkey⟩ := findSlot_spec t k idx hfs
    simp only [HT.remove, hfs]
    set t2 : HT α :=
      { t with table := t.table.set idx { t.slotAt idx with isEmpty := true }
               elementCount := u32sub t.elementCount 1 } with ht2
    have hsize : t2.size = t.size := rfl
    have hslot : ∀ m : Nat,
        (!(t2.slotAt m).isEmpty && (t2.slotAt m).key == j) =
          (!(t.slotAt m).isEmpty && (t.slotAt m).key == j) := by
      intro m
      have hs : t2.slotAt m =
          if idx = m ∧ idx < t.table.length then { t.slotAt idx with isEmpty := true }
          else t.slotAt m := slotAt_set t _ idx _ m
      rw [hs]
      split
      · next hm =>
        obtain ⟨heq, _⟩ := hm
        subst heq
        have hbf : ((t.slotAt idx).key == j) = false := by
          rw [hkey]
          exact beq_eq_false_iff_ne.mpr fun hc => hne hc.symm
        simp [hbf]
      · rfl
    have hfind : t2.findSlot j = t.findSlot j := by
      unfold HT.findSlot
      rw [hsize, hslot (j % t.size)]
      by_cases hc : (!(t.slotAt (j % t.size)).isEmpty &&
          (t.slotAt (j % t.size)).key == j) = true
      · rw [if_pos hc, if_pos hc]
      · rw [if_neg hc, if_neg hc]
        refine findSome?_congr _ _ _ fun i _ => ?_
        rw [hslot (probe t.size (j % t.size) i)]
    unfold HT.get at hget ⊢
    rw [hfind]
    cases hjs : t.findSlot j with
    | none => rw [hjs] at hget; exact absurd hget (by simp)
    | some jdx =>
      rw [hjs] at hget
      obtain ⟨_, hjkey⟩ := findSlot_spec t j jdx hjs
      have hnedx : ¬ (idx = jdx ∧ idx < t.table.length) := by
        rintro ⟨heq, _⟩
        apply hne
        rw [← hjkey, ← heq, hkey]
      have hsl : t2.slotAt jdx = t.slotAt jdx := by
        rw [slotAt_set t _ idx _ jdx, if_neg hnedx]
      simp only [Option.map_some', Option.some_inj] at hget ⊢
      rw [hsl]
      exact hget

/-- Witness for C10: in the concrete table `tW` (keys 1 and 2), key 2
is retrievable before and after `remove(1)`. -/
theorem claim_C10_witness :
    tW.get 2 = some 6 ∧ ((tW.remove 1).1).get 2 = some 6 :=
  ⟨by decide, claim_C10_remove_preserves_get tW 1 2 6 (by decide) (by decide)⟩

/-- C1: Index bijection invariant: after every public priority-queue
operation (insert, deleteMin, remove, decreaseKey, increaseKey) returns,
for every slot `i` with `1 ≤ i ≤ elementCount` the internal hash index
maps `heap[i].key` to exactly `i`, and every key present in the hash
index is the key of some currently occupied heap slot.  The code
violates this: after `insert 5, insert 10, insert 1, deleteMin,
deleteMin` on a maxSize-3 queue, the lone live slot 1 holds key 5 but
the hash index has no entry for 5 at all, while it still maps key 10 to
the dead slot 3 (`percolateDown`'s base case swapped the live node into
the stale cell 3).  The spec itself flags this implementation gap as the
documented defect, so the claim is the intent and the code is the bug. -/
theorem claim_C1_bijection_code_bug :
    qA5.numElements = 1 ∧ (qA5.hAt 1).key = 5 ∧ qA5.data.get 5 = none ∧
    qA5.data.get 10 = some 3 := by decide

/-- C2: Min-heap order invariant in every reachable state.  The code
violates it: on a maxSize-5 queue, `insert 1, insert 2, insert 10,
insert 3, insert 4` then `deleteMin` leaves the heap
`[2, 4, 10, 3]` — slot 4 (key 3) is a child of slot 2 (key 4), yet
`4 > 3`, because `percolateDown`'s guard uses `leftChild(i) <
elementCount` (strict) and never examines a lone child sitting exactly
at slot `elementCount`. -/
theorem claim_C2_heap_order_code_bug :
    qB2.numElements = 4 ∧ parent 4 = 2 ∧ (qB2.hAt 2).key = 4 ∧
    (qB2.hAt 4).key = 3 ∧ qB2.heapOrdered = false := by decide

/-- C3: the priority-queue scenario of the spec, replayed literally on
the embedded code: 13 inserts into a maxSize-14 queue put 18 at the
root; `deleteMin` succeeds and 20 becomes minimal; `remove(24)` succeeds,
drops `numElements` by one and preserves heap order; `increaseKey(20,
100)` succeeds, key 20 disappears, key 120 is live, and the minimum is
27 (the next smallest surviving key); `remove(98)` succeeds; and
`decreaseKey(120, 119)` succeeds, turning 120 into 1, the new minimum. -/
theorem claim_C3_scenario :
    qS0.numElements = 13 ∧ qS0.getMinKey = some 18 ∧
    qS0.deleteMin.2 = true ∧ qS1.getMinKey = some 20 ∧
    (qS1.remove 24).2 = true ∧ qS2.numElements + 1 = qS1.numElements ∧
    qS2.heapOrdered = true ∧
    (qS2.increaseKey 20 100).2 = true ∧ qS3.data.get 20 = none ∧
    (qS3.get 120).isSome = true ∧ qS3.getMinKey = some 27 ∧
    (qS3.remove 98).2 = true ∧
    (qS4.decreaseKey 120 119).2 = true ∧ qS5.data.get 120 = none ∧
    (qS5.hAt 1).key = 1 ∧ qS5.getMinKey = some 1 := by decide

/-- C5: the hash-table rehash scenario: from size 7, inserting keys
2, 7, 5, 9, 8, 6 (here with values 20, 70, 50, 90, 80, 60; no control
flow of the table ever inspects a stored value) triggers exactly one
rehash — the size is still 7 after the first three inserts, jumps to 17
at the insert of 9, and stays 17 afterwards — where 17 is the smallest
prime `≥ 14`; the collected pairs (7, 2, 5 in bucket-scan order) are
reinserted and then the pending 9 is placed, as the explicit layout
after the fourth insert shows; afterwards all six keys are retrievable
with their original values and `numElements() = 6`. -/
theorem claim_C5_rehash_scenario :
    (tS3 20 70 50).size = 7 ∧ (tS3 20 70 50).elementCount = 3 ∧
    (tS4 20 70 50 90).size = 17 ∧
    nextPrime 14 = 17 ∧ Nat.Prime 17 ∧
    ¬ Nat.Prime 14 ∧ ¬ Nat.Prime 15 ∧ ¬ Nat.Prime 16 ∧
    (tS4 20 70 50 90).table =
      [blankPair Nat, blankPair Nat, ⟨2, 20, false⟩, blankPair Nat,
       blankPair Nat, ⟨5, 50, false⟩, blankPair Nat, ⟨7, 70, false⟩,
       blankPair Nat, ⟨9, 90, false⟩, blankPair Nat, blankPair Nat,
       blankPair Nat, blankPair Nat, blankPair Nat, blankPair Nat,
       blankPair Nat] ∧
    (tS 20 70 50 90 80 60).size = 17 ∧
    (tS 20 70 50 90 80 60).elementCount = 6 ∧
    (tS 20 70 50 90 80 60).get 2 = some 20 ∧
    (tS 20 70 50 90 80 60).get 7 = some 70 ∧
    (tS 20 70 50 90 80 60).get 5 = some 50 ∧
    (tS 20 70 50 90 80 60).get 9 = some 90 ∧
    (tS 20 70 50 90 80 60).get 8 = some 80 ∧
    (tS 20 70 50 90 80 60).get 6 = some 60 := by decide

/-- C6 counterexample: the claim says a swap against two existing equal
children smaller than the sinking node goes to the right child.  In the
reachable state `qC3` (heap `[3, 5, 5, 7]`), `deleteMin` sinks key 7
from the root against the tied live children at slots 2 and 3 (both key
5, both `≤ elementCount = 3` during the sift) — and the code swaps with
the LEFT child: 7 lands at slot 2 while slot 3 keeps its pair
`(5, 11)`. -/
theorem claim_C6_tie_counterexample :
    qC3.numElements = 4 ∧ (qC3.hAt 1).key = 3 ∧ (qC3.hAt 2).key = 5 ∧
    (qC3.hAt 3).key = 5 ∧ (qC3.hAt 4).key = 7 ∧
    qC3.deleteMin.2 = true ∧ qC4.numElements = 3 ∧
    (qC4.hAt 2).key = 7 ∧ (qC4.hAt 2).value = 16 ∧
    (qC4.hAt 3).key = 5 ∧ (qC4.hAt 3).value = 11 := by decide

/-- C6 amended: in `percolateDown`'s swap step the chosen child is the
LEFT child whenever the two children's keys are equal (left wins ties)
and also whenever the left key is strictly smaller; the right child is
chosen exactly when its key is strictly smaller than the left one. -/
theorem claim_C6_tie_left_amended (γ : Type) [Inhabited γ] (q : PQ γ) (i : Nat) :
    ((q.hAt (leftChild i)).key = (q.hAt (rightChild i)).key →
      q.childSelect i = leftChild i) ∧
    ((q.hAt (leftChild i)).key < (q.hAt (rightChild i)).key →
      q.childSelect i = leftChild i) ∧
    ((q.hAt (rightChild i)).key < (q.hAt (leftChild i)).key →
      q.childSelect i = rightChild i) := by
  refine ⟨fun h => ?_, fun h => ?_, fun h => ?_⟩
  · unfold PQ.childSelect; rw [if_neg (by omega)]
  · unfold PQ.childSelect; rw [if_neg (by omega)]
  · unfold PQ.childSelect; rw [if_pos (by omega)]

/-- Witness for C6 amended, at the tied children of `qC3`'s root. -/
theorem claim_C6_tie_left_amended_witness :
    (qC3.hAt (leftChild 1)).key = (qC3.hAt (rightChild 1)).key ∧
    qC3.childSelect 1 = leftChild 1 :=
  ⟨by decide, (claim_C6_tie_left_amended Nat qC3 1).1 (by decide)⟩

/-- C7: the claim that `percolateDown` touches only slots in
`1 .. elementCount` is wrong: in the reachable two-element state `qA4`
the stale cell 3 holds the pair `(5, 100)`; the following `deleteMin`
runs `percolateDown(1)` with `elementCount = 1`, whose base case reads
the dead cells 2 and 3 and even swaps the live node `(10, 200)` into
cell 3 — a write outside the occupied range (and, for `maxSize = 2`, the
same base case reads `heap[3]` past the end of the allocation).  The
out-of-range branch is reachable, so the safety claim fails on the code;
the spec's documented-defect note marks the base case as the intended
culprit. -/
theorem claim_C7_sift_out_of_range_code_bug :
    qA4.numElements = 2 ∧ (qA4.hAt 3).key = 5 ∧ (qA4.hAt 3).value = 100 ∧
    qA4.deleteMin.2 = true ∧ qA5.numElements = 1 ∧
    (qA5.hAt 3).key = 10 ∧ (qA5.hAt 3).value = 200 := by decide

/-- C8 counterexample: the claimed format (levels separated by single
spaces and terminated by bare newlines) does not match the code on a
partially filled final level: the queue `qP2` prints
`"(1,10)\n(2,20) \n"` — with a trailing space before the final
newline — while the claimed rendering is `"(1,10)\n(2,20)\n"`. -/
theorem claim_C8_print_counterexample :
    qP2.printString = "(1,10)\n(2,20) \n" ∧
    renderLevelsClaim (qP2.elementCount + 1) qP2.liveElems 1 =
      "(1,10)\n(2,20)\n" ∧
    qP2.printString ≠
      renderLevelsClaim (qP2.elementCount + 1) qP2.liveElems 1 := by decide

/-- C9: `getMinKey()` and `getMinValue()` never return a null pointer:
both unconditionally return the address of cell 1's field, so on an
empty queue the caller sees the stale cell-1 contents instead of `none`
and cannot detect emptiness — as the emptied queue `qE` shows, where
`numElements() = 0` yet both accessors still produce a stale element. -/
theorem claim_C9_min_accessors_never_null :
    (∀ (γ : Type) [Inhabited γ] (q : PQ γ),
      q.getMinKey = some (q.hAt 1).key ∧ q.getMinValue = some (q.hAt 1).value ∧
      q.getMinKey ≠ none ∧ q.getMinValue ≠ none) ∧
    qE.numElements = 0 ∧ qE.getMinKey = some 5 ∧ qE.getMinValue = some 100 :=
  ⟨fun _ _ _ => ⟨rfl, rfl, Option.some_ne_none _, Option.some_ne_none _⟩,
   by decide, by decide, by decide⟩

/-- `renderLine` on a list of two or more elements peels off the head
and one separating space. -/
theorem renderLine_cons {β : Type} [ToString β] (p : Pair β) (l : List (Pair β))
    (h : l ≠ []) : renderLine (p :: l) = pairString p ++ " " ++ renderLine l := by
  cases l with
  | nil => exact absurd rfl h
  | cons q rs => rfl

/-- One `printLoop` pass over a single heap level: with `k` slots left
in the current level (`counter + k = current`), the loop emits the
remaining elements of the level joined by spaces; if the elements run
out inside the level the text ends with a trailing space and newline (or
just a newline when the level had started and no element is left, or
nothing at all on empty output with `counter = 0`); otherwise the
level's newline is followed by the loop on the rest of the elements with
the doubled level size. -/
theorem printLoop_run {β : Type} [ToString β] :
    ∀ (k : Nat) (elems : List (Pair β)) (counter current : Nat),
      counter + k = current → 1 ≤ k →
      printLoop elems counter current =
        if elems.length < k then
          (match elems with
           | [] => if counter ≠ 0 then "\n" else ""
           | _ :: _ => renderLine elems ++ " \n")
        else
          renderLine (elems.take k) ++ "\n" ++
            printLoop (elems.drop k) 0 (current + current) := by
  intro k
  induction k with
  | zero => omega
  | succ k ih =>
    intro elems counter current hsum _
    cases elems with
    | nil =>
      simp [printLoop]
    | cons p rest =>
      by_cases hk : k = 0
      · subst hk
        have hcc : counter + 1 = current := by omega
        have houter : ¬ ((p :: rest).length < 0 + 1) := by simp
        rw [if_neg houter]
        have htake : (p :: rest).take (0 + 1) = [p] := rfl
        have hdrop : (p :: rest).drop (0 + 1) = rest := rfl
        rw [htake, hdrop]
        simp only [printLoop, if_pos hcc, renderLine, String.append_assoc]
      · have hcc : ¬ (counter + 1 = current) := by omega
        simp only [printLoop, if_neg hcc]
        rw [ih rest (counter + 1) current (by omega) (by omega)]
        by_cases hlen : rest.length < k
        · have houter : (p :: rest).length < k + 1 := by simp only [List.length_cons]; omega
          rw [if_pos hlen, if_pos houter]
          cases rest with
          | nil =>
            have h1 : counter + 1 ≠ 0 := by omega
            rw [if_pos h1]
            simp only [renderLine, String.append_assoc]
            rfl
          | cons q rs =>
            rw [renderLine_cons p (q :: rs) (by simp)]
            simp only [String.append_assoc]
        · have houter : ¬ ((p :: rest).length < k + 1) := by
            simp only [List.length_cons]; omega
          rw [if_neg hlen, if_neg houter]
          have htake : (p :: rest).take (k + 1) = p :: rest.take k := rfl
          have hdrop : (p :: rest).drop (k + 1) = rest.drop k := rfl
          rw [htake, hdrop]
          have hne2 : rest.take k ≠ [] := by
            intro hc
            have := congrArg List.length hc
            simp only [List.length_take, List.length_nil] at this
            omega
          rw [renderLine_cons p (rest.take k) hne2]
          simp only [String.append_assoc]

/-- `printLoop` started at a level boundary equals the level-chunked
spec-side rendering, for any fuel above the element count. -/
theorem printLoop_eq_renderLevels {β : Type} [ToString β] :
    ∀ (fuel : Nat) (elems : List (Pair β)) (current : Nat),
      elems.length < fuel → 1 ≤ current →
      printLoop elems 0 current = renderLevels fuel elems current := by
  intro fuel
  induction fuel with
  | zero => intro elems current h _; omega
  | succ fuel ih =>
    intro elems current hlen hcur
    cases elems with
    | nil => simp [printLoop, renderLevels]
    | cons p rest =>
      rw [printLoop_run current (p :: rest) 0 current (by omega) hcur]
      by_cases hl : (p :: rest).length < current
      · rw [if_pos hl]
        simp only [renderLevels, if_pos hl]
      · rw [if_neg hl]
        simp only [renderLevels, if_neg hl]
        have hlen2 : ((p :: rest).drop current).length < fuel := by
          rw [List.length_drop]
          simp only [List.length_cons] at hlen hl ⊢
          omega
        rw [ih ((p :: rest).drop current) (current + current) hlen2 (by omega)]
        have h2c : current + current = 2 * current := by omega
        rw [h2c]

/-- C8 amended: for every priority queue the stream output renders
`heap[1] .. heap[elementCount]` level by level, elements of a level
separated by single spaces, each complete level terminated by a bare
newline, level sizes doubling from 1, and a partially filled final level
rendered with one trailing space before its terminating newline (the
space the loop emits after an element that does not complete its
level). -/
theorem claim_C8_print_format_amended (γ : Type) [Inhabited γ] [ToString γ]
    (q : PQ γ) : q.printString = q.renderSpec := by
  unfold PQ.printString PQ.renderSpec
  refine printLoop_eq_renderLevels (q.elementCount + 1) q.liveElems 1 ?_ (by omega)
  unfold PQ.liveElems
  simp

/-- Cells other than the written one are unchanged by `List.set`. -/
theorem getD_set_ne {γ : Type} (l : List γ) (i m : Nat) (a d : γ) (h : i ≠ m) :
    (l.set i a).getD m d = l.getD m d := by
  simp [List.getD_eq_getElem?_getD, List.getElem?_set, h]

/-- Writing one cell raises the occupied count of an initial segment by
at most one, and not at all when the write lands at or beyond the
segment. -/
theorem occOf_set {α : Type} [Inhabited α] (tbl : List (Pair α)) (idx : Nat)
    (s : Pair α) :
    ∀ n : Nat, occOf (tbl.set idx s) n ≤ occOf tbl n + 1 ∧
      (n ≤ idx → occOf (tbl.set idx s) n = occOf tbl n) := by
  intro n
  induction n with
  | zero => exact ⟨by simp [occOf], fun _ => rfl⟩
  | succ n ih =>
    have hstep : ∀ (l : List (Pair α)),
        occOf l (n + 1) =
          occOf l n + (([n] : List Nat).filter
            (fun i => (l.getD i default).isEmpty = false)).length := by
      intro l
      unfold occOf
      rw [List.range_succ, List.filter_append, List.length_append]
    rw [hstep, hstep]
    by_cases hn : idx = n
    · subst hn
      have heq : occOf (tbl.set idx s) idx = occOf tbl idx := ih.2 (le_refl idx)
      have h1 : (([idx] : List Nat).filter
          (fun i => ((tbl.set idx s).getD i default).isEmpty = false)).length ≤ 1 :=
        le_trans (List.length_filter_le _ _) (by simp)
      exact ⟨by omega, by omega⟩
    · have hbit : (([n] : List Nat).filter
          (fun i => ((tbl.set idx s).getD i default).isEmpty = false)).length =
          (([n] : List Nat).filter
            (fun i => (tbl.getD i default).isEmpty = false)).length := by
        rw [List.filter_singleton, List.filter_singleton,
          getD_set_ne tbl idx n s default hn]
      rw [hbit]
      exact ⟨by have := ih.1; omega, fun hle => by have := ih.2 (by omega); omega⟩

/-- A freshly allocated bucket array has no occupied cells. -/
theorem occOf_replicate {α : Type} [Inhabited α] (m n : Nat) :
    occOf (List.replicate m (blankPair α)) n = 0 := by
  unfold occOf
  rw [List.length_eq_zero, List.filter_eq_nil_iff]
  intro i _
  have hd : (List.replicate m (blankPair α)).getD i default = blankPair α := by
    rw [List.getD_eq_getElem?_getD, List.getElem?_replicate]
    split <;> rfl
  simp only [hd]
  simp [blankPair]

/-- `reinsertOne` never changes the bucket-array length. -/
theorem length_reinsertOne {α : Type} [Inhabited α] (ns : Nat)
    (tbl : List (Pair α)) (pr : Nat × α) :
    (reinsertOne ns tbl pr).length = tbl.length := by
  unfold reinsertOne
  split
  · simp
  · split <;> simp

/-- The reinsertion fold never changes the bucket-array length. -/
theorem length_foldl_reinsert {α : Type} [Inhabited α] (ns : Nat) :
    ∀ (l : List (Nat × α)) (init : List (Pair α)),
      (l.foldl (reinsertOne ns) init).length = init.length := by
  intro l
  induction l with
  | nil => intro init; rfl
  | cons pr rest ih =>
    intro init
    rw [List.foldl_cons, ih, length_reinsertOne]

/-- One reinsertion occupies at most one new bucket. -/
theorem occOf_reinsertOne_le {α : Type} [Inhabited α] (ns : Nat)
    (tbl : List (Pair α)) (pr : Nat × α) :
    occOf (reinsertOne ns tbl pr) ns ≤ occOf tbl ns + 1 := by
  unfold reinsertOne
  split
  · exact (occOf_set tbl _ _ ns).1
  · split
    · exact (occOf_set tbl _ _ ns).1
    · omega

/-- The reinsertion fold occupies at most one bucket per element. -/
theorem occOf_foldl_le {α : Type} [Inhabited α] (ns : Nat) :
    ∀ (l : List (Nat × α)) (init : List (Pair α)),
      occOf (l.foldl (reinsertOne ns) init) ns ≤ occOf init ns + l.length := by
  intro l
  induction l with
  | nil => intro init; simp
  | cons pr rest ih =>
    intro init
    rw [List.foldl_cons]
    have h1 := ih (reinsertOne ns init pr)
    have h2 := occOf_reinsertOne_le ns init pr
    simp only [List.length_cons]
    omega

/-- A real prime passes the C++ `isPrime` trial division. -/
theorem isPrime_of_prime {p : Nat} (hp : Nat.Prime p) : isPrime p = true := by
  unfold isPrime
  rw [if_neg hp.ne_one, List.all_eq_true]
  intro i hi
  rw [List.mem_range'_1] at hi
  have hp2 := hp.two_le
  simp only [bne_iff_ne, ne_eq]
  intro hmod
  have hdvd : i ∣ p := Nat.dvd_of_mod_eq_zero hmod
  rcases Nat.Prime.eq_one_or_self_of_dvd hp i hdvd with h | h <;> omega

/-- Conversely, passing the trial division at `p ≥ 2` means `p` is
prime. -/
theorem prime_of_isPrime {p : Nat} (h2 : 2 ≤ p) (h : isPrime p = true) :
    Nat.Prime p := by
  rw [Nat.prime_def_lt]
  refine ⟨h2, fun m hm hdvd => ?_⟩
  by_contra hm1
  have hm0 : m ≠ 0 := by
    rintro rfl
    rw [Nat.zero_dvd] at hdvd
    omega
  unfold isPrime at h
  rw [if_neg (by omega), List.all_eq_true] at h
  have hmem : m ∈ List.range' 2 (p - 2) := by
    rw [List.mem_range'_1]
    omega
  have hbne := h m hmem
  simp only [bne_iff_ne, ne_eq] at hbne
  obtain ⟨c, rfl⟩ := hdvd
  exact hbne (Nat.mul_mod_right m c)

/-- The `nextPrime` loop returns the first `isPrime` value at or above
its argument, provided such a value exists within the fuel. -/
theorem nextPrimeAux_le :
    ∀ (fuel v q : Nat), v ≤ q → q < v + fuel → isPrime q = true →
      isPrime (nextPrimeAux fuel v) = true ∧ v ≤ nextPrimeAux fuel v ∧
        nextPrimeAux fuel v ≤ q := by
  intro fuel
  induction fuel with
  | zero => intro v q h1 h2 _; omega
  | succ fuel ih =>
    intro v q hvq hlt hq
    unfold nextPrimeAux
    by_cases h : isPrime v = true
    · rw [if_pos h]
      exact ⟨h, le_refl v, hvq⟩
    · rw [if_neg h]
      have hvq2 : v + 1 ≤ q := by
        rcases Nat.eq_or_lt_of_le hvq with heq | hlt2
        · exact absurd (by rw [← heq] at hq; exact hq) h
        · omega
      obtain ⟨ha, hb, hc⟩ := ih (v + 1) q hvq2 (by omega) hq
      exact ⟨ha, by omega, hc⟩

/-- `nextPrime v` passes `isPrime`, is at least `v`, and (by Bertrand's
postulate) at most `2*v`, for `v ≥ 2`. -/
theorem nextPrime_spec {v : Nat} (h2 : 2 ≤ v) :
    isPrime (nextPrime v) = true ∧ v ≤ nextPrime v ∧ nextPrime v ≤ 2 * v := by
  obtain ⟨q, hq, hlt, hle⟩ := Nat.exists_prime_lt_and_le_two_mul (v - 1) (by omega)
  have hvq : v ≤ q := by omega
  obtain ⟨ha, hb, hc⟩ :=
    nextPrimeAux_le (v + 2) v q hvq (by omega) (isPrime_of_prime hq)
  refine ⟨ha, hb, ?_⟩
  unfold nextPrime
  omega

/-- For the table sizes reachable under the stated bounds the `2^32`
wrap in `probe` is the identity. -/
theorem probe_small {p home i : Nat} (hple : p ≤ 131071) (hhome : home < p)
    (hi : i ≤ 65535) : probe p home i = (home + i * i) % p := by
  unfold probe
  have h0 : i * i ≤ 65535 * 65535 := Nat.mul_le_mul hi hi
  have h1 : i * i % U32 = i * i := Nat.mod_eq_of_lt (by unfold U32; omega)
  rw [h1]
  have hlt2 : (home + i * i) % U32 = home + i * i :=
    Nat.mod_eq_of_lt (by unfold U32; omega)
  rw [hlt2]

/-- On a prime table size the first `(p-1)/2 + 1` quadratic probes hit
pairwise distinct buckets. -/
theorem probe_inj {p : Nat} (hp : Nat.Prime p) (hple : p ≤ 131071) {home : Nat}
    (hhome : home < p) {i j : Nat} (hi : i ≤ (p - 1) / 2) (hj : j ≤ (p - 1) / 2)
    (heq : probe p home i = probe p home j) : i = j := by
  have hp2 := hp.two_le
  have hi6 : i ≤ 65535 := by omega
  have hj6 : j ≤ 65535 := by omega
  rw [probe_small hple hhome hi6, probe_small hple hhome hj6] at heq
  suffices haux : ∀ a b : Nat, a ≤ (p - 1) / 2 → b ≤ (p - 1) / 2 → b ≤ a →
      (home + a * a) % p = (home + b * b) % p → a = b by
    rcases Nat.le_total j i with hij | hij
    · exact haux i j hi hj hij heq
    · exact (haux j i hj hi hij heq.symm).symm
  intro a b ha hb hba heqab
  have hmod : Nat.ModEq p (home + a * a) (home + b * b) := heqab
  have hsq : Nat.ModEq p (a * a) (b * b) :=
    Nat.ModEq.add_left_cancel (Nat.ModEq.refl home) hmod
  have hdvd : p ∣ a * a - b * b :=
    (Nat.modEq_iff_dvd' (Nat.mul_le_mul hba hba)).mp hsq.symm
  have hfact : a * a - b * b = (a + b) * (a - b) := by
    have h := Nat.sq_sub_sq a b
    simpa [Nat.pow_two] using h
  rw [hfact] at hdvd
  rcases (Nat.Prime.dvd_mul hp).mp hdvd with hd | hd
  · have hlt : a + b < p := by omega
    have := Nat.eq_zero_of_dvd_of_lt hd hlt
    omega
  · have hlt : a - b < p := by omega
    have := Nat.eq_zero_of_dvd_of_lt hd hlt
    omega

/-- Pigeonhole for the placement probe: on a prime-sized table with at
most `(p-1)/2` occupied buckets, some probe position is empty. -/
theorem exists_empty_probe {α : Type} [Inhabited α] (tbl : List (Pair α))
    {p home : Nat} (hp : Nat.Prime p) (hple : p ≤ 131071) (hhome : home < p)
    (hocc : occOf tbl p ≤ (p - 1) / 2) :
    ∃ i, i ∈ List.range p ∧ (tbl.getD (probe p home i) default).isEmpty = true := by
  by_contra hc
  push_neg at hc
  have hp2 := hp.two_le
  have hforall : ∀ i, i ∈ List.range p →
      (tbl.getD (probe p home i) default).isEmpty = false := by
    intro i hi
    have hne := hc i hi
    cases hb : (tbl.getD (probe p home i) default).isEmpty
    · rfl
    · exact absurd hb hne
  have hnodup : ((List.range ((p - 1) / 2 + 1)).map (probe p home)).Nodup := by
    refine List.Nodup.map_on ?_ (List.nodup_range _)
    intro x hx y hy hxy
    rw [List.mem_range] at hx hy
    exact probe_inj hp hple hhome (by omega) (by omega) hxy
  have hsub : ((List.range ((p - 1) / 2 + 1)).map (probe p home)) ⊆
      (List.range p).filter fun m => (tbl.getD m default).isEmpty = false := by
    intro m hm
    rw [List.mem_map] at hm
    obtain ⟨i, hi, rfl⟩ := hm
    rw [List.mem_range] at hi
    rw [List.mem_filter, List.mem_range]
    have hplt : probe p home i < p := by
      unfold probe
      exact Nat.mod_lt _ (by omega)
    refine ⟨hplt, ?_⟩
    have hocc' := hforall i (by rw [List.mem_range]; omega)
    simp only [List.getD_eq_getElem?_getD] at hocc'
    simp [hocc']
  have hlenle := (List.subperm_of_subset hnodup hsub).length_le
  rw [List.length_map, List.length_range] at hlenle
  unfold occOf at hocc
  omega

/-- If some probe position is empty, the placement phase of
`HashTable::insert` succeeds. -/
theorem placePhase_snd_true {α : Type} [Inhabited α] (t' : HT α) (index k : Nat)
    (v : α)
    (h : ∃ i, i ∈ List.range t'.size ∧
      (t'.slotAt (probe t'.size index i)).isEmpty = true) :
    (t'.placePhase index k v).2 = true := by
  unfold HT.placePhase
  split
  · rfl
  · cases hfs : (List.range t'.size).findSome? (fun i =>
        if (t'.slotAt (probe t'.size index i)).isEmpty then
          some (probe t'.size index i)
        else none) with
    | some idx => rfl
    | none =>
      exfalso
      obtain ⟨i, hi, hempty⟩ := h
      have hnone := List.findSome?_eq_none_iff.mp hfs i hi
      rw [if_pos hempty] at hnone
      exact Option.some_ne_none _ hnone

/-- After a triggered rehash the pending element always finds a bucket:
the new size is an odd prime above twice the old size, so the distinct
probe positions outnumber the occupied buckets. -/
theorem checkRehash_placePhase_true {α : Type} [Inhabited α] (t1 : HT α)
    (home k : Nat) (v : α)
    (hlen : t1.table.length = t1.size) (h2 : 2 ≤ t1.size) (hub : t1.size ≤ 32768)
    (hre : 2 * t1.elementCount ≥ t1.size) :
    (((HT.checkRehash t1 home k).1).placePhase ((HT.checkRehash t1 home k).2) k v).2
      = true := by
  have hmod2 : 2 * t1.size % U32 = 2 * t1.size :=
    Nat.mod_eq_of_lt (by unfold U32; omega)
  have hcr : HT.checkRehash t1 home k =
      ({ size := nextPrime (2 * t1.size)
         table := t1.occupiedPairs.foldl (reinsertOne (nextPrime (2 * t1.size)))
           (List.replicate (nextPrime (2 * t1.size)) (blankPair α))
         elementCount := t1.elementCount }, k % nextPrime (2 * t1.size)) := by
    unfold HT.checkRehash
    rw [if_pos hre, hmod2]
  rw [hcr]
  obtain ⟨hip, hge, hle2⟩ := nextPrime_spec (v := 2 * t1.size) (by omega)
  have hprime : Nat.Prime (nextPrime (2 * t1.size)) :=
    prime_of_isPrime (by omega) hip
  have hpodd : nextPrime (2 * t1.size) % 2 = 1 :=
    Nat.odd_iff.mp (hprime.odd_of_ne_two (by omega))
  have hple : nextPrime (2 * t1.size) ≤ 131071 := by omega
  have hpairs : t1.occupiedPairs.length ≤ t1.size := by
    unfold HT.occupiedPairs
    rw [List.length_map]
    calc (t1.table.filter fun s => !s.isEmpty).length
        ≤ t1.table.length := List.length_filter_le _ _
      _ = t1.size := hlen
  have hocc : occOf (t1.occupiedPairs.foldl (reinsertOne (nextPrime (2 * t1.size)))
      (List.replicate (nextPrime (2 * t1.size)) (blankPair α)))
      (nextPrime (2 * t1.size)) ≤ (nextPrime (2 * t1.size) - 1) / 2 := by
    have h1 := occOf_foldl_le (nextPrime (2 * t1.size)) t1.occupiedPairs
      (List.replicate (nextPrime (2 * t1.size)) (blankPair α))
    rw [occOf_replicate] at h1
    omega
  refine placePhase_snd_true _ _ _ _ ?_
  have hhome : k % nextPrime (2 * t1.size) < nextPrime (2 * t1.size) :=
    Nat.mod_lt _ (by omega)
  obtain ⟨i, hi, hempty⟩ := exists_empty_probe
    (t1.occupiedPairs.foldl (reinsertOne (nextPrime (2 * t1.size)))
      (List.replicate (nextPrime (2 * t1.size)) (blankPair α)))
    hprime hple hhome hocc
  exact ⟨i, hi, hempty⟩

/-- `HashTable::insert` reduced through a known scan-phase result. -/
theorem insert_scan_some {α : Type} [Inhabited α] (t : HT α) (k : Nat) (v : α)
    (pr : HT α × Nat) (h : t.insertScan k = some pr) :
    t.insert k v = (pr.1).placePhase pr.2 k v := by
  unfold HT.insert
  rw [h]

/-- `HashTable::insert` when the scan phase reports a duplicate. -/
theorem insert_scan_none {α : Type} [Inhabited α] (t : HT α) (k : Nat) (v : α)
    (h : t.insertScan k = none) : t.insert k v = (t, false) := by
  unfold HT.insert
  rw [h]

/-- Failure atomicity of `HashTable::insert` on well-formed states: the
bucket array matches `size`, `elementCount` matches the physical
occupancy (the C++ rehash buffer is sized by it), and the size is a
sane bound.  Every `return false` then happens before any write: the
duplicate return and the scan fall-through are pure, and the
unable-to-place return after a rehash is unreachable because the grown
prime table always offers an empty probe position. -/
theorem ht_insert_atomic {α : Type} [Inhabited α] (t : HT α) (k : Nat) (v : α)
    (hlen : t.table.length = t.size) (hcnt : t.elementCount = t.occCount)
    (h2 : 2 ≤ t.size) (hub : t.size ≤ 32768)
    (hfalse : (t.insert k v).2 = false) : (t.insert k v).1 = t := by
  have hoccle : t.occCount ≤ t.size := by
    unfold HT.occCount
    calc ((List.range t.size).filter fun i => (t.slotAt i).isEmpty = false).length
        ≤ (List.range t.size).length := List.length_filter_le _ _
      _ = t.size := List.length_range _
  have hmodid : (t.elementCount + 1) % U32 = t.elementCount + 1 :=
    Nat.mod_eq_of_lt (by unfold U32; omega)
  by_cases hemp : (t.slotAt (k % t.size)).isEmpty = true
  · have hscan1 : t.insertScan k =
        some (HT.checkRehash { t with elementCount := (t.elementCount + 1) % U32 }
          (k % t.size) k) := by
      unfold HT.insertScan
      rw [if_pos hemp]
    rw [insert_scan_some t k v _ hscan1] at hfalse ⊢
    by_cases hre : 2 * ((t.elementCount + 1) % U32) ≥ t.size
    · exfalso
      have htrue := checkRehash_placePhase_true
        { t with elementCount := (t.elementCount + 1) % U32 } (k % t.size) k v
        hlen h2 hub hre
      rw [htrue] at hfalse
      exact absurd hfalse (by decide)
    · exfalso
      have hcr : HT.checkRehash
          { t with elementCount := (t.elementCount + 1) % U32 } (k % t.size) k =
          ({ t with elementCount := (t.elementCount + 1) % U32 }, k % t.size) := by
        unfold HT.checkRehash
        rw [if_neg hre]
      rw [hcr] at hfalse
      dsimp only at hfalse
      have htrue : (({ t with elementCount := (t.elementCount + 1) % U32 } :
          HT α).placePhase (k % t.size) k v).2 = true := by
        unfold HT.placePhase
        rw [if_pos (show ((({ t with elementCount := (t.elementCount + 1) % U32 } :
          HT α)).slotAt (k % t.size)).isEmpty = true from hemp)]
      rw [htrue] at hfalse
      exact absurd hfalse (by decide)
  · have hemp' : (t.slotAt (k % t.size)).isEmpty = false := by
      cases hb : (t.slotAt (k % t.size)).isEmpty
      · rfl
      · exact absurd hb hemp
    cases hscan : (List.range t.size).findSome? (fun i =>
        if !(t.slotAt (probe t.size (k % t.size) i)).isEmpty &&
           (t.slotAt (probe t.size (k % t.size) i)).key == k then some true
        else if (t.slotAt (probe t.size (k % t.size) i)).isEmpty then some false
        else none) with
    | none =>
      have hscan1 : t.insertScan k = some (t, k % t.size) := by
        unfold HT.insertScan
        rw [if_neg hemp, hscan]
      rw [insert_scan_some t k v _ hscan1] at hfalse ⊢
      dsimp only at hfalse ⊢
      unfold HT.placePhase at hfalse ⊢
      rw [if_neg hemp] at hfalse ⊢
      cases hps : (List.range t.size).findSome? (fun i =>
          if (t.slotAt (probe t.size (k % t.size) i)).isEmpty = true then
            some (probe t.size (k % t.size) i)
          else none) with
      | none => rfl
      | some idx =>
        rw [hps] at hfalse
        simp at hfalse
    | some b =>
      cases b with
      | true =>
        have hscan1 : t.insertScan k = none := by
          unfold HT.insertScan
          rw [if_neg hemp, hscan]
        rw [insert_scan_none t k v hscan1]
      | false =>
        exfalso
        have hscan1 : t.insertScan k =
            some (HT.checkRehash
              { t with elementCount := (t.elementCount + 1) % U32 } (k % t.size) k) := by
          unfold HT.insertScan
          rw [if_neg hemp, hscan]
        rw [insert_scan_some t k v _ hscan1] at hfalse
        obtain ⟨i, hi, hfi⟩ := List.exists_of_findSome?_eq_some hscan
        have hempty_i : (t.slotAt (probe t.size (k % t.size) i)).isEmpty = true := by
          by_cases hdup : (!(t.slotAt (probe t.size (k % t.size) i)).isEmpty &&
              (t.slotAt (probe t.size (k % t.size) i)).key == k) = true
          · rw [if_pos hdup] at hfi
            exact absurd hfi (by simp)
          · rw [if_neg hdup] at hfi
            by_cases he : (t.slotAt (probe t.size (k % t.size) i)).isEmpty = true
            · exact he
            · rw [if_neg he] at hfi
              exact absurd hfi (by simp)
        by_cases hre : 2 * ((t.elementCount + 1) % U32) ≥ t.size
        · have htrue := checkRehash_placePhase_true
            { t with elementCount := (t.elementCount + 1) % U32 } (k % t.size) k v
            hlen h2 hub hre
          rw [htrue] at hfalse
          exact absurd hfalse (by decide)
        · have hcr : HT.checkRehash
              { t with elementCount := (t.elementCount + 1) % U32 } (k % t.size) k =
              ({ t with elementCount := (t.elementCount + 1) % U32 }, k % t.size) := by
            unfold HT.checkRehash
            rw [if_neg hre]
          rw [hcr] at hfalse
          dsimp only at hfalse
          have htrue := placePhase_snd_true
            ({ t with elementCount := (t.elementCount + 1) % U32 } : HT α)
            (k % t.size) k v ⟨i, hi, hempty_i⟩
          rw [htrue] at hfalse
          exact absurd hfalse (by decide)

/-- Failure atomicity of `HashTable::update`. -/
theorem ht_update_atomic {α : Type} [Inhabited α] (t : HT α) (k : Nat) (v : α)
    (h : (t.update k v).2 = false) : (t.update k v).1 = t := by
  unfold HT.update at h ⊢
  cases hfs : t.findSlot k with
  | none => rfl
  | some idx =>
    rw [hfs] at h
    simp at h

/-- Failure atomicity of `HashTable::remove`. -/
theorem ht_remove_atomic {α : Type} [Inhabited α] (t : HT α) (k : Nat)
    (h : (t.remove k).2 = false) : (t.remove k).1 = t := by
  unfold HT.remove at h ⊢
  cases hfs : t.findSlot k with
  | none => rfl
  | some idx =>
    rw [hfs] at h
    simp at h

/-- Failure atomicity of `PriorityQueue::insert`. -/
theorem pq_insert_atomic {γ : Type} [Inhabited γ] (q : PQ γ) (k : Nat) (v : γ)
    (h : (q.insert k v).2 = false) : (q.insert k v).1 = q := by
  by_cases hg : (q.elementCount ≥ q.size ∨ q.data.get k ≠ none)
  · unfold PQ.insert
    rw [if_pos hg]
  · exfalso
    unfold PQ.insert at h
    rw [if_neg hg] at h
    simp at h

/-- Failure atomicity of `PriorityQueue::deleteMin`. -/
theorem pq_deleteMin_atomic {γ : Type} [Inhabited γ] (q : PQ γ)
    (h : q.deleteMin.2 = false) : q.deleteMin.1 = q := by
  by_cases hg : q.elementCount = 0
  · unfold PQ.deleteMin
    rw [if_pos hg]
  · exfalso
    unfold PQ.deleteMin at h
    rw [if_neg hg] at h
    simp at h

/-- Failure atomicity of `PriorityQueue::remove`. -/
theorem pq_remove_atomic {γ : Type} [Inhabited γ] (q : PQ γ) (k : Nat)
    (h : (q.remove k).2 = false) : (q.remove k).1 = q := by
  by_cases hg : q.data.get k = none
  · unfold PQ.remove
    rw [if_pos hg]
  · exfalso
    unfold PQ.remove at h
    rw [if_neg hg] at h
    simp at h

/-- Failure atomicity of `PriorityQueue::decreaseKey`. -/
theorem pq_decreaseKey_atomic {γ : Type} [Inhabited γ] (q : PQ γ) (k c : Nat)
    (h : (q.decreaseKey k c).2 = false) : (q.decreaseKey k c).1 = q := by
  by_cases hg : (c = 0 ∨ q.data.get k = none ∨ q.data.get (u32sub k c) ≠ none)
  · unfold PQ.decreaseKey
    rw [if_pos hg]
  · exfalso
    unfold PQ.decreaseKey at h
    rw [if_neg hg] at h
    simp at h

/-- Failure atomicity of `PriorityQueue::increaseKey`. -/
theorem pq_increaseKey_atomic {γ : Type} [Inhabited γ] (q : PQ γ) (k c : Nat)
    (h : (q.increaseKey k c).2 = false) : (q.increaseKey k c).1 = q := by
  by_cases hg : (c = 0 ∨ q.data.get k = none ∨ q.data.get ((k + c) % U32) ≠ none)
  · unfold PQ.increaseKey
    rw [if_pos hg]
  · exfalso
    unfold PQ.increaseKey at h
    rw [if_neg hg] at h
    simp at h

/-- C4: failure atomicity: every hash-table operation (insert, update,
remove) and every priority-queue operation (insert, deleteMin, remove,
decreaseKey, increaseKey) that returns `false` leaves its structure
completely unchanged.  For the hash-table insert this holds on the
well-formed states the structure actually reaches (bucket array of
length `size`, `elementCount` equal to the physical occupancy — which
also sizes the C++ rehash buffer — and a positive bounded size); all
other operations are unconditionally atomic on failure, since their
`false` returns precede any mutation. -/
theorem claim_C4_failure_atomicity :
    (∀ (α : Type) [Inhabited α] (t : HT α) (k : Nat) (v : α),
        t.table.length = t.size → t.elementCount = t.occCount →
        2 ≤ t.size → t.size ≤ 32768 →
        (t.insert k v).2 = false → (t.insert k v).1 = t) ∧
    (∀ (α : Type) [Inhabited α] (t : HT α) (k : Nat) (v : α),
        (t.update k v).2 = false → (t.update k v).1 = t) ∧
    (∀ (α : Type) [Inhabited α] (t : HT α) (k : Nat),
        (t.remove k).2 = false → (t.remove k).1 = t) ∧
    (∀ (γ : Type) [Inhabited γ] (q : PQ γ) (k : Nat) (v : γ),
        (q.insert k v).2 = false → (q.insert k v).1 = q) ∧
    (∀ (γ : Type) [Inhabited γ] (q : PQ γ),
        q.deleteMin.2 = false → q.deleteMin.1 = q) ∧
    (∀ (γ : Type) [Inhabited γ] (q : PQ γ) (k : Nat),
        (q.remove k).2 = false → (q.remove k).1 = q) ∧
    (∀ (γ : Type) [Inhabited γ] (q : PQ γ) (k c : Nat),
        (q.decreaseKey k c).2 = false → (q.decreaseKey k c).1 = q) ∧
    (∀ (γ : Type) [Inhabited γ] (q : PQ γ) (k c : Nat),
        (q.increaseKey k c).2 = false → (q.increaseKey k c).1 = q) :=
  ⟨fun _ _ t k v h1 h2 h3 h4 h5 => ht_insert_atomic t k v h1 h2 h3 h4 h5,
   fun _ _ t k v h => ht_update_atomic t k v h,
   fun _ _ t k h => ht_remove_atomic t k h,
   fun _ _ q k v h => pq_insert_atomic q k v h,
   fun _ _ q h => pq_deleteMin_atomic q h,
   fun _ _ q k h => pq_remove_atomic q k h,
   fun _ _ q k c h => pq_decreaseKey_atomic q k c h,
   fun _ _ q k c h => pq_increaseKey_atomic q k c h⟩

/-- Witness for C4: a duplicate insert of key 1 into the concrete
well-formed table `tW` fails and leaves the table unchanged. -/
theorem claim_C4_failure_atomicity_witness :
    (tW.insert 1 9).2 = false ∧ (tW.insert 1 9).1 = tW :=
  ⟨by decide,
   claim_C4_failure_atomicity.1 Nat tW 1 9 (by decide) (by decide) (by decide)
     (by decide) (by decide)⟩

end CppPQ
